import Mathlib

/-!
Verification of the RustOS kernel core (task.rs, memory.rs,
bootloader_kernel.rs) against its design specification.

The embedding models machine state explicitly: memory is a map from
addresses to machine words, the context-switch inline assembly is a list
of micro-operations with an explicit semantics, and physical addresses
follow the x86_64 crate's `PhysAddr` (valid iff below 2^52).
-/

namespace RustOS

/-! ### Machine model

A `Machine` carries the word-addressed memory (`mem a` is the machine
word stored at address `a`), the stack pointer, the instruction pointer,
the general-purpose register file, and the interrupt-enable flag. -/

structure Machine where
  mem : Nat → Nat
  rsp : Nat
  rip : Nat
  regs : Nat → Nat
  intEnabled : Bool

/-- Micro-operations an inline-assembly block can emit.  The source only
ever emits `setRsp` and `retOp` (`asm!("mov rsp, {}", "ret", ...)` in
`Scheduler::run_next_task`); `cliOp`, `stiOp`, `saveRegs` and
`restoreRegs` are in the vocabulary so that the specification's
requirements about interrupt masking and register-file save/restore can
be stated about the emitted instruction list. -/
inductive MicroOp where
  | setRsp (v : Nat)
  | retOp
  | cliOp
  | stiOp
  | saveRegs (dst : Nat)
  | restoreRegs (src : Nat)
  deriving DecidableEq, Repr

/-- Semantics of one micro-operation.  `retOp` pops the word at `rsp`
into `rip` and bumps `rsp` by one word (8 bytes).  `saveRegs dst` stores
the 16-register file at 8-byte strides from `dst`; `restoreRegs src`
reloads it. -/
def savedRegsMem (regs mem : Nat → Nat) (dst : Nat) (a : Nat) : Nat :=
  if dst ≤ a ∧ a < dst + 128 ∧ (a - dst) % 8 = 0 then regs ((a - dst) / 8) else mem a

def execOp (m : Machine) : MicroOp → Machine
  | .setRsp v => { m with rsp := v }
  | .retOp => { m with rip := m.mem m.rsp, rsp := m.rsp + 8 }
  | .cliOp => { m with intEnabled := false }
  | .stiOp => { m with intEnabled := true }
  | .saveRegs dst => { m with mem := savedRegsMem m.regs m.mem dst }
  | .restoreRegs src => { m with regs := fun i => m.mem (src + 8 * i) }

def execOps (ops : List MicroOp) (m : Machine) : Machine :=
  ops.foldl execOp m

/-! ### Task and Scheduler (task.rs) -/

/-- The stack buffer size fixed by `Task::new`: `Vec::with_capacity(4096)`. -/
def stackSize : Nat := 4096

/-- A task: integer id, the base address of its heap-allocated stack
buffer (standing for the `Vec<u8>` allocation, whose bytes live in
`Machine.mem`), and the saved stack pointer. -/
structure Task where
  id : Nat
  stackBase : Nat
  stack_pointer : Nat
  deriving DecidableEq, Repr

/-- `Task::new(entry_point)`: allocates a 4096-byte stack buffer (here:
the caller supplies the fresh allocation's base address `base`, so the
buffer occupies addresses `base` to `base + 4096` exclusive), computes
`sp = stack.as_mut_ptr().add(4096)`, writes the entry point's address at
`sp`, and returns the task with `id: 0` and `stack_pointer = sp`. -/
def Task.new (base entry : Nat) (m : Machine) : Task × Machine :=
  let sp := base + stackSize
  (⟨0, base, sp⟩, { m with mem := fun a => if a = sp then entry else m.mem a })

/-- The byte range of a task's stack buffer allocation. -/
def inStackBuffer (t : Task) (a : Nat) : Prop :=
  t.stackBase ≤ a ∧ a < t.stackBase + stackSize

structure Scheduler where
  tasks : List Task
  current_task : Nat
  deriving DecidableEq, Repr

/-- `Scheduler::new()`. -/
def Scheduler.new : Scheduler := ⟨[], 0⟩

/-- `Scheduler::add_task`: `self.tasks.push(task)`. -/
def Scheduler.add_task (s : Scheduler) (t : Task) : Scheduler :=
  { s with tasks := s.tasks ++ [t] }

/-- A scheduler built by a sequence of `add_task` calls on `Scheduler::new()`. -/
def Scheduler.buildFrom (ts : List Task) : Scheduler :=
  ts.foldl Scheduler.add_task Scheduler.new

/-- The micro-operations emitted by the inline assembly in
`run_next_task`: `mov rsp, {stack_pointer}` then `ret`. -/
def switchOps (sp : Nat) : List MicroOp := [.setRsp sp, .retOp]

/-- `Scheduler::run_next_task`: returns early on an empty task list;
otherwise advances `current_task` by one modulo the task count, and runs
the context-switch assembly on the machine.  The result also records the
emitted micro-operation list so that properties of the switch itself can
be stated. -/
def Scheduler.run_next_task (s : Scheduler) (m : Machine) :
    Scheduler × Machine × List MicroOp :=
  if s.tasks.isEmpty then (s, m, [])
  else
    let cur := (s.current_task + 1) % s.tasks.length
    let next := s.tasks.getD cur ⟨0, 0, 0⟩
    ({ s with current_task := cur },
     execOps (switchOps next.stack_pointer) m,
     switchOps next.stack_pointer)

/-- The indices selected by `M` successive `run_next_task` calls. -/
def scheduledIndices : Nat → Scheduler × Machine → List Nat
  | 0, _ => []
  | k + 1, sm =>
    let r := sm.1.run_next_task sm.2
    r.1.current_task :: scheduledIndices k (r.1, r.2.1)

/-! ### Helper lemmas for the scheduler -/

theorem foldl_add_task (ts : List Task) (s : Scheduler) :
    ts.foldl Scheduler.add_task s = ⟨s.tasks ++ ts, s.current_task⟩ := by
  induction ts generalizing s with
  | nil => simp
  | cons t ts ih => simp [Scheduler.add_task, ih]

theorem buildFrom_spec (ts : List Task) :
    Scheduler.buildFrom ts = ⟨ts, 0⟩ := by
  simp [Scheduler.buildFrom, foldl_add_task, Scheduler.new]

theorem run_next_task_nonempty (s : Scheduler) (m : Machine) (h : s.tasks ≠ []) :
    s.run_next_task m =
      ({ s with current_task := (s.current_task + 1) % s.tasks.length },
       execOps (switchOps
         ((s.tasks.getD ((s.current_task + 1) % s.tasks.length) ⟨0, 0, 0⟩).stack_pointer)) m,
       switchOps
         ((s.tasks.getD ((s.current_task + 1) % s.tasks.length) ⟨0, 0, 0⟩).stack_pointer)) := by
  rw [Scheduler.run_next_task, if_neg]
  simp [h]

theorem scheduledIndices_formula (M : Nat) (s : Scheduler) (m : Machine)
    (h : s.tasks ≠ []) :
    scheduledIndices M (s, m) =
      (List.range M).map (fun k => (s.current_task + k + 1) % s.tasks.length) := by
  induction M generalizing s m with
  | zero => simp [scheduledIndices]
  | succ M ih =>
    rw [scheduledIndices, run_next_task_nonempty s m h]
    rw [ih _ _ (by simpa using h)]
    rw [List.range_succ_eq_map]
    simp only [List.map_cons, List.map_map, Function.comp]
    congr 1
    refine List.map_congr_left fun k _ => ?_
    simp only [Function.comp_apply, Nat.succ_eq_add_one]
    rw [add_assoc ((s.current_task + 1) % s.tasks.length) k 1, Nat.mod_add_mod]
    congr 1
    omega

/-! ### Concrete instances used in end-to-end scenarios -/

/-- A machine with zeroed memory and registers and interrupts enabled. -/
def m0 : Machine := ⟨fun _ => 0, 0, 0, fun _ => 0, true⟩

def taskA : Task := ⟨0, 0x1000, 0x2000⟩
def taskB : Task := ⟨0, 0x3000, 0x4000⟩
def taskC : Task := ⟨0, 0x5000, 0x6000⟩

/-- C1: a scheduler holding N > 0 tasks added in order by `add_task`
(insertion order preserved, current index 0) has each `run_next_task`
call advance the index by one modulo N, so M calls select indices
`(k+1) % N` for `k = 0, ..., M-1`: the round-robin sequence
1, 2, ..., N-1, 0, 1, ... wrapped modulo N. -/
theorem scheduler_round_robin (ts : List Task) (M : Nat) (m : Machine)
    (h : ts ≠ []) :
    (Scheduler.buildFrom ts).tasks = ts ∧
    (Scheduler.buildFrom ts).current_task = 0 ∧
    scheduledIndices M (Scheduler.buildFrom ts, m) =
      (List.range M).map (fun k => (k + 1) % ts.length) := by
  rw [buildFrom_spec]
  refine ⟨rfl, rfl, ?_⟩
  rw [scheduledIndices_formula M ⟨ts, 0⟩ m h]
  simp

/-- Witness for C1: three tasks T0, T1, T2 added in that order; four
`run_next_task` calls schedule indices 1, 2, 0, 1. -/
theorem scheduler_round_robin_witness :
    scheduledIndices 4 (Scheduler.buildFrom [taskA, taskB, taskC], m0) =
      [1, 2, 0, 1] := by
  have h := scheduler_round_robin [taskA, taskB, taskC] 4 m0 (by simp)
  rw [h.2.2]
  decide

/-- C10: with an empty task collection `run_next_task` is a no-op (the
scheduler, the machine, and the emitted instruction list are all
unchanged/empty), and with a nonempty collection the new index is
`(current + 1) % length`, which is always a valid in-bounds index, so
the modulo is never taken with a zero task count. -/
theorem run_next_task_empty_noop (s : Scheduler) (m : Machine) :
    (s.tasks = [] → s.run_next_task m = (s, m, [])) ∧
    (s.tasks ≠ [] →
      (s.run_next_task m).1.current_task = (s.current_task + 1) % s.tasks.length ∧
      (s.run_next_task m).1.current_task < s.tasks.length ∧
      (s.run_next_task m).1.tasks = s.tasks) := by
  constructor
  · intro h
    rw [Scheduler.run_next_task, if_pos]
    simp [h]
  · intro h
    rw [run_next_task_nonempty s m h]
    refine ⟨rfl, ?_, rfl⟩
    exact Nat.mod_lt _ (List.length_pos.mpr h)

/-- Witness for C10: the empty scheduler is left unchanged, and on a
two-task scheduler the selected index is in bounds. -/
theorem run_next_task_empty_noop_witness :
    Scheduler.new.run_next_task m0 = (Scheduler.new, m0, []) ∧
    ((Scheduler.buildFrom [taskA, taskB]).run_next_task m0).1.current_task < 2 := by
  constructor
  · exact (run_next_task_empty_noop Scheduler.new m0).1 rfl
  · have h := (run_next_task_empty_noop (Scheduler.buildFrom [taskA, taskB]) m0).2
      (by decide)
    simpa using h.2.1

/-! ### C2: what the context switch actually does -/

/-- Formalisation of the claim: on every `run_next_task` call with a
nonempty task collection, the emitted context-switch instructions save
the register file somewhere, restore a register file, and disable
interrupts for the switch. -/
def SwitchSavesRegsAndMasksInterrupts : Prop :=
  ∀ (s : Scheduler) (m : Machine), s.tasks ≠ [] →
    (∃ d, MicroOp.saveRegs d ∈ (s.run_next_task m).2.2) ∧
    (∃ r, MicroOp.restoreRegs r ∈ (s.run_next_task m).2.2) ∧
    MicroOp.cliOp ∈ (s.run_next_task m).2.2

/-- C2 counterexample: on a two-task scheduler the switch emits exactly
`mov rsp, sp; ret` — in particular no interrupt-disable instruction —
so the claimed property fails. -/
theorem context_switch_claim_cex : ¬ SwitchSavesRegsAndMasksInterrupts := fun h =>
  absurd (h (Scheduler.buildFrom [taskA, taskB]) m0 (by decide)).2.2 (by decide)

/-- C2 (amended): the context switch is minimal.  It emits exactly
`mov rsp, next.stack_pointer; ret`; afterwards `rsp` points one word
past the next task's saved stack pointer, `rip` is the word popped from
that stack, and everything else — the interrupt flag, the register
file, memory, and every stored task context (in particular the
suspended task's `stack_pointer` field) — is left unchanged: nothing of
the current task is saved and interrupts are never disabled. -/
theorem context_switch_minimal (s : Scheduler) (m : Machine) (h : s.tasks ≠ []) :
    (s.run_next_task m).2.2 =
      switchOps ((s.tasks.getD ((s.current_task + 1) % s.tasks.length)
        ⟨0, 0, 0⟩).stack_pointer) ∧
    (s.run_next_task m).2.1.intEnabled = m.intEnabled ∧
    (s.run_next_task m).2.1.regs = m.regs ∧
    (s.run_next_task m).2.1.mem = m.mem ∧
    (s.run_next_task m).1.tasks = s.tasks ∧
    (s.run_next_task m).2.1.rsp =
      (s.tasks.getD ((s.current_task + 1) % s.tasks.length) ⟨0, 0, 0⟩).stack_pointer + 8 ∧
    (s.run_next_task m).2.1.rip =
      m.mem ((s.tasks.getD ((s.current_task + 1) % s.tasks.length) ⟨0, 0, 0⟩).stack_pointer) := by
  rw [run_next_task_nonempty s m h]
  simp [execOps, execOp, switchOps]

/-- Witness for C2's amended theorem: on a two-task scheduler the
switch leaves the interrupt flag enabled and loads task B's stack
pointer plus one word into `rsp`. -/
theorem context_switch_minimal_witness :
    ((Scheduler.buildFrom [taskA, taskB]).run_next_task m0).2.1.intEnabled = true ∧
    ((Scheduler.buildFrom [taskA, taskB]).run_next_task m0).2.1.rsp = 0x4008 := by
  have h := context_switch_minimal (Scheduler.buildFrom [taskA, taskB]) m0 (by decide)
  refine ⟨?_, ?_⟩
  · rw [h.2.1]
    rfl
  · rw [h.2.2.2.2.2.1]
    decide

/-! ### Interrupt layer (bootloader_kernel.rs)

Handlers are modelled as pure functions on the kernel-visible state
together with the trace of externally observable events they produce
(port reads/writes and calls into the console/shell collaborator). -/

/-- An externally observable action of an interrupt handler: a read of
an I/O port yielding `value`, a hand-off of a byte to the console/shell
collaborator, or a write of `value` to an I/O port. -/
inductive PortEvent where
  | portRead (port value : Nat)
  | handoff (value : Nat)
  | portWrite (port value : Nat)
  deriving DecidableEq, Repr

/-- Kernel-visible state: the `TIMER_TICKS` counter, the CPU's
interrupt-enable flag, and whether execution is stuck in the `panic`
handler's `loop {}`. -/
structure KernelState where
  timer_ticks : Nat
  intEnabled : Bool
  halted : Bool
  deriving DecidableEq, Repr

/-- `timer_interrupt_handler`: `TIMER_TICKS.fetch_add(1, Relaxed)`, then
the end-of-interrupt byte 0x20 is written to the interrupt controller's
command port 0x20. -/
def timer_interrupt_handler (s : KernelState) : KernelState × List PortEvent :=
  ({ s with timer_ticks := s.timer_ticks + 1 }, [.portWrite 0x20 0x20])

/-- `keyboard_interrupt_handler`: reads one scan-code byte from data
port 0x60 (the byte the port yields is the `scancode` argument), binds
it and drops it — the source holds only the comment
`// Handle keyboard input here` where handling would go — then writes
the end-of-interrupt byte 0x20 to command port 0x20. -/
def keyboard_interrupt_handler (s : KernelState) (scancode : Nat) :
    KernelState × List PortEvent :=
  (s, [.portRead 0x60 scancode, .portWrite 0x20 0x20])

/-- `double_fault_handler` followed by the `panic` handler: the panic
prints the context and enters `loop {}`.  The CPU cleared the
interrupt-enable flag on entry through the double fault's interrupt
gate, and the diverging handler never executes `iretq` or `sti`, so the
flag stays cleared and execution stays in the loop. -/
def double_fault_handler (s : KernelState) : KernelState :=
  { s with intEnabled := false, halted := true }

/-- An injected hardware event. -/
inductive KEvent where
  | timerIRQ
  | keyboardIRQ (sc : Nat)
  | doubleFault
  deriving DecidableEq, Repr

/-- Delivery of one injected event.  Maskable interrupt lines (timer,
keyboard) are delivered only while the interrupt-enable flag is set; a
serviced IRQ enters through an interrupt gate (flag cleared) and its
handler returns via `iretq` (flag restored), so the net state change is
the handler's own.  A double fault is a non-maskable exception and runs
`double_fault_handler`. -/
def kernelStep (s : KernelState) : KEvent → KernelState
  | .timerIRQ => if s.intEnabled then (timer_interrupt_handler s).1 else s
  | .keyboardIRQ sc => if s.intEnabled then (keyboard_interrupt_handler s sc).1 else s
  | .doubleFault => double_fault_handler s

/-- C4: every timer interrupt increments the tick counter by exactly
one and then writes the end-of-interrupt byte 0x20 to the interrupt
controller's command port 0x20; any number of keyboard interrupts (any
scan codes) leaves the tick counter unchanged. -/
theorem timer_tick_exact (s : KernelState) (codes : List Nat) :
    (timer_interrupt_handler s).1.timer_ticks = s.timer_ticks + 1 ∧
    (timer_interrupt_handler s).2 = [PortEvent.portWrite 0x20 0x20] ∧
    (codes.foldl (fun st c => (keyboard_interrupt_handler st c).1) s).timer_ticks
      = s.timer_ticks := by
  refine ⟨rfl, rfl, ?_⟩
  induction codes generalizing s with
  | nil => rfl
  | cons c cs ih => exact ih s

/-- Formalisation of the claim: the keyboard handler's trace is one
read of the data port, a hand-off of the read byte to the console/shell
collaborator, then the end-of-interrupt write, in that order. -/
def KeyboardHandsOffScancode : Prop :=
  ∀ (s : KernelState) (sc : Nat),
    (keyboard_interrupt_handler s sc).2 =
      [PortEvent.portRead 0x60 sc, PortEvent.handoff sc, PortEvent.portWrite 0x20 0x20]

/-- C5 counterexample: at scan code 0 the handler's trace is just the
port read followed by the end-of-interrupt write — it contains no
hand-off to any collaborator — so the claimed trace shape fails. -/
theorem keyboard_handoff_cex : ¬ KeyboardHandsOffScancode := fun h =>
  absurd (h ⟨0, true, false⟩ 0) (by decide)

/-- C5 (amended): the keyboard handler reads exactly one scan-code byte
from data port 0x60 and then writes the end-of-interrupt byte to
command port 0x20, in that order; the byte is discarded — no hand-off
to the console/shell collaborator occurs — and the kernel state is
unchanged. -/
theorem keyboard_read_then_eoi (s : KernelState) (sc : Nat) :
    (keyboard_interrupt_handler s sc).2 =
      [PortEvent.portRead 0x60 sc, PortEvent.portWrite 0x20 0x20] ∧
    (∀ v, PortEvent.handoff v ∉ (keyboard_interrupt_handler s sc).2) ∧
    (keyboard_interrupt_handler s sc).1 = s := by
  refine ⟨rfl, ?_, rfl⟩
  intro v
  simp [keyboard_interrupt_handler]

/-! ### C7: a double fault freezes the system -/

theorem kernelStep_fixpoint (s : KernelState) (h1 : s.intEnabled = false)
    (h2 : s.halted = true) (e : KEvent) : kernelStep s e = s := by
  cases s
  cases e <;>
    simp_all [kernelStep, double_fault_handler, timer_interrupt_handler,
      keyboard_interrupt_handler]

theorem foldl_kernelStep_fixpoint (evs : List KEvent) (s : KernelState)
    (h1 : s.intEnabled = false) (h2 : s.halted = true) :
    evs.foldl kernelStep s = s := by
  induction evs with
  | nil => rfl
  | cons e es ih => rw [List.foldl_cons, kernelStep_fixpoint s h1 h2 e, ih]

/-- C7: once a double fault has been raised, the system is halted and
stays halted, and the tick counter never changes again under any
further sequence of injected events — in particular under any number of
further timer interrupts. -/
theorem double_fault_halts (s : KernelState) (evs : List KEvent) :
    (evs.foldl kernelStep (kernelStep s .doubleFault)).timer_ticks =
      s.timer_ticks ∧
    (evs.foldl kernelStep (kernelStep s .doubleFault)).halted = true := by
  rw [show kernelStep s .doubleFault = double_fault_handler s from rfl]
  rw [foldl_kernelStep_fixpoint evs (double_fault_handler s) rfl rfl]
  exact ⟨rfl, rfl⟩

/-! ### Frame allocator (memory.rs)

Physical addresses follow the x86_64 crate's `PhysAddr`: an address is
valid iff it is below 2^52, `PhysAddr::new` panics on an invalid
address, and `PhysAddr + u64` goes through `PhysAddr::new`. -/

/-- `Size4KiB::SIZE`. -/
def pageSize : Nat := 0x1000

/-- Exclusive upper bound of valid physical addresses (52-bit). -/
def physAddrLimit : Nat := 2 ^ 52

structure MemoryManager where
  next_free_frame : Nat
  deriving DecidableEq, Repr

/-- `MemoryManager::new()`: the bump pointer starts at 1 MB. -/
def MemoryManager.new : MemoryManager := ⟨0x100000⟩

/-- `PhysFrame::containing_address`: the start address of the frame
containing the given address, i.e. the address aligned down to the page
size. -/
def containing_address (a : Nat) : Nat := a - a % pageSize

/-- Result of one `allocate_frame` call.  `ok` models `Some(frame)`
with the updated manager; `outOfMemory` models a reported out-of-memory
failure (in the vocabulary so the specification's failure contract can
be stated — the code never produces it); `panicked` models an aborted
`PhysAddr::new` invariant violation. -/
inductive AllocResult where
  | ok (frame : Nat) (m : MemoryManager)
  | outOfMemory
  | panicked
  deriving DecidableEq, Repr

/-- `MemoryManager::allocate_frame`: computes the frame containing
`next_free_frame`, then executes `self.next_free_frame += Size4KiB::SIZE`
— which panics inside `PhysAddr::new` if the bumped address leaves the
52-bit physical address space — and returns `Some(frame)`
unconditionally. -/
def MemoryManager.allocate_frame (m : MemoryManager) : AllocResult :=
  let frame := containing_address m.next_free_frame
  if m.next_free_frame + pageSize < physAddrLimit then
    .ok frame ⟨m.next_free_frame + pageSize⟩
  else
    .panicked

/-- `k` successive `allocate_frame` calls; `none` if any call fails to
return a frame. -/
def allocN : Nat → MemoryManager → Option (List Nat × MemoryManager)
  | 0, m => some ([], m)
  | k + 1, m =>
    match m.allocate_frame with
    | .ok f m' => (allocN k m').map fun r => (f :: r.1, r.2)
    | _ => none

theorem allocN_formula (k : Nat) (m : MemoryManager)
    (ha : m.next_free_frame % pageSize = 0)
    (hb : m.next_free_frame + k * pageSize < physAddrLimit) :
    allocN k m =
      some ((List.range k).map fun i => m.next_free_frame + i * pageSize,
            ⟨m.next_free_frame + k * pageSize⟩) := by
  induction k generalizing m with
  | zero => simp [allocN]
  | succ k ih =>
    rw [allocN]
    have hstep : m.next_free_frame + pageSize < physAddrLimit := by
      have : pageSize ≤ (k + 1) * pageSize := Nat.le_mul_of_pos_left _ (Nat.succ_pos k)
      omega
    rw [MemoryManager.allocate_frame]
    simp only [hstep, if_pos]
    have hrec := ih ⟨m.next_free_frame + pageSize⟩
      (by rw [Nat.add_mod, ha, Nat.mod_self]; simp)
      (by rw [Nat.succ_mul] at hb
          show m.next_free_frame + pageSize + k * pageSize < physAddrLimit
          omega)
    rw [hrec]
    refine congrArg some (Prod.ext ?_ ?_)
    · show containing_address m.next_free_frame ::
        (List.range k).map (fun i => m.next_free_frame + pageSize + i * pageSize) =
        (List.range (k + 1)).map fun i => m.next_free_frame + i * pageSize
      rw [List.range_succ_eq_map, List.map_cons]
      refine congrArg₂ List.cons ?_ ?_
      · simp [containing_address, ha]
      · rw [List.map_map]
        refine List.map_congr_left fun i _ => ?_
        simp only [Function.comp_apply, Nat.succ_eq_add_one]
        ring
    · show (⟨m.next_free_frame + pageSize + k * pageSize⟩ : MemoryManager) =
        ⟨m.next_free_frame + (k + 1) * pageSize⟩
      congr 1
      ring

theorem getD_map_range (f : Nat → Nat) (k i : Nat) (h : i < k) :
    ((List.range k).map f).getD i 0 = f i := by
  rw [List.getD_eq_getElem?_getD, List.getElem?_map, List.getElem?_range h]
  rfl

/-- C3: `k` successive `allocate_frame` calls on a fresh
`MemoryManager::new()` all succeed (for any realistic `k`), and the
returned physical addresses are `0x100000 + i * 0x1000`: strictly
increasing, pairwise distinct, page-aligned, and consecutive returns
differ by exactly one page; the final bump pointer is
`0x100000 + k * 0x1000`. -/
theorem allocate_frame_sequence (k : Nat) (hk : k ≤ 2 ^ 39) :
    ∃ fs mfin,
      allocN k MemoryManager.new = some (fs, mfin) ∧
      fs = (List.range k).map (fun i => 0x100000 + i * pageSize) ∧
      fs.Pairwise (· < ·) ∧
      (∀ a ∈ fs, a % pageSize = 0) ∧
      (∀ i, i + 1 < k → fs.getD (i + 1) 0 = fs.getD i 0 + pageSize) ∧
      mfin = ⟨0x100000 + k * pageSize⟩ := by
  have hb : (0x100000 : Nat) + k * pageSize < physAddrLimit := by
    have hmul : k * 4096 ≤ 2 ^ 39 * 4096 := Nat.mul_le_mul_right _ hk
    have hpow : (2 : Nat) ^ 39 * 4096 = 2251799813685248 := by norm_num
    have hlim : (2 : Nat) ^ 52 = 4503599627370496 := by norm_num
    rw [hpow] at hmul
    rw [pageSize, physAddrLimit, hlim]
    omega
  have h : allocN k MemoryManager.new =
      some ((List.range k).map fun i => 0x100000 + i * pageSize,
            ⟨0x100000 + k * pageSize⟩) :=
    allocN_formula k MemoryManager.new (by decide) hb
  refine ⟨_, _, h, rfl, ?_, ?_, ?_, rfl⟩
  · refine List.Pairwise.map _ (fun a b hab => ?_) (List.pairwise_lt_range k)
    simp only [pageSize]
    omega
  · intro a ha
    simp only [List.mem_map] at ha
    obtain ⟨i, -, rfl⟩ := ha
    simp only [pageSize]
    omega
  · intro i hi
    rw [getD_map_range _ k (i + 1) hi, getD_map_range _ k i (by omega)]
    ring

/-- Witness for C3: five allocations from a fresh allocator return
0x100000, 0x101000, 0x102000, 0x103000, 0x104000. -/
theorem allocate_frame_sequence_witness :
    allocN 5 MemoryManager.new =
      some ([0x100000, 0x101000, 0x102000, 0x103000, 0x104000], ⟨0x105000⟩) := by
  obtain ⟨fs, mfin, h1, h2, -, -, -, h6⟩ := allocate_frame_sequence 5 (by norm_num)
  rw [h1, h2, h6]
  decide

/-! ### C6: behaviour at address-space exhaustion -/

/-- Formalisation of the claim: `allocate_frame` reports `OutOfMemory`
exactly when the physical address space is exhausted (the bump pointer
cannot advance by a page within the valid address space), and returns a
frame whenever it is not exhausted. -/
def AllocFailsWithOOMIffExhausted : Prop :=
  ∀ m : MemoryManager,
    (physAddrLimit ≤ m.next_free_frame + pageSize →
      m.allocate_frame = .outOfMemory) ∧
    (m.next_free_frame + pageSize < physAddrLimit →
      ∃ f m', m.allocate_frame = .ok f m')

/-- C6 counterexample: with the bump pointer one page below the top of
the 52-bit physical address space, the next allocation panics inside
`PhysAddr::new` — it does not report an `OutOfMemory` failure. -/
theorem alloc_oom_cex : ¬ AllocFailsWithOOMIffExhausted := fun h =>
  absurd ((h ⟨physAddrLimit - pageSize⟩).1 (by decide)) (by decide)

/-- C6 (amended): `allocate_frame` never reports `OutOfMemory`.  It
returns a frame unconditionally whenever the bumped pointer stays
inside the 52-bit physical address space, and at exhaustion the
unconditional `next_free_frame += Size4KiB::SIZE` panics inside
`PhysAddr::new` instead of reporting a defined failure. -/
theorem alloc_never_oom (m : MemoryManager) :
    m.allocate_frame ≠ .outOfMemory ∧
    (m.next_free_frame + pageSize < physAddrLimit →
      m.allocate_frame = .ok (containing_address m.next_free_frame)
        ⟨m.next_free_frame + pageSize⟩) ∧
    (physAddrLimit ≤ m.next_free_frame + pageSize →
      m.allocate_frame = .panicked) := by
  have hval : m.allocate_frame =
      if m.next_free_frame + pageSize < physAddrLimit then
        AllocResult.ok (containing_address m.next_free_frame)
          ⟨m.next_free_frame + pageSize⟩
      else .panicked := rfl
  by_cases h : m.next_free_frame + pageSize < physAddrLimit
  · rw [hval, if_pos h]
    exact ⟨by simp, fun _ => rfl, fun hc => absurd hc (by omega)⟩
  · rw [hval, if_neg h]
    exact ⟨by simp, fun hc => absurd hc h, fun _ => rfl⟩

/-- Witness for C6's amended theorem: the first allocation on a fresh
manager returns frame 0x100000 with the pointer bumped to 0x101000, and
at the top of the address space the call panics. -/
theorem alloc_never_oom_witness :
    MemoryManager.new.allocate_frame = .ok 0x100000 ⟨0x101000⟩ ∧
    MemoryManager.allocate_frame ⟨physAddrLimit - pageSize⟩ = .panicked := by
  constructor
  · rw [(alloc_never_oom MemoryManager.new).2.1 (by decide)]
    decide
  · exact (alloc_never_oom ⟨physAddrLimit - pageSize⟩).2.2 (by decide)

/-! ### C8: task identifiers -/

/-- Formalisation of the claim: any two distinct tasks created by
`Task::new` carry distinct integer ids. -/
def TaskIdsUnique : Prop :=
  ∀ (b1 e1 b2 e2 : Nat) (m : Machine),
    (Task.new b1 e1 m).1 ≠ (Task.new b2 e2 m).1 →
    ((Task.new b1 e1 m).1).id ≠ ((Task.new b2 e2 m).1).id

/-- C8 counterexample: two tasks created at distinct stack allocations
(bases 0x1000 and 0x3000) are distinct tasks, yet both carry id 0. -/
theorem task_id_not_unique_cex : ¬ TaskIdsUnique := fun h =>
  h 0x1000 0 0x3000 0 m0 (by decide) rfl

/-- C8 (amended): `Task::new` assigns every created task the constant
id 0 (the field is hardcoded to `id: 0`), so ids do not distinguish
live tasks: any two tasks, distinct or not, share id 0. -/
theorem task_id_always_zero (b e : Nat) (m : Machine) :
    ((Task.new b e m).1).id = 0 := rfl

/-! ### C9: stack priming in Task::new -/

/-- C9: `Task::new` sets `stack_pointer = base + 4096` and writes the
entry-point address there, which is one word past the end of the
4096-byte stack allocation `[base, base + 4096)` — an out-of-bounds
write, outside the buffer the task owns.  Under the flat memory model
the first context switch into the task does pop that word and begin
executing at the entry point. -/
theorem task_new_primes_one_past_buffer (b e : Nat) (m : Machine) :
    ((Task.new b e m).1).stack_pointer = b + stackSize ∧
    ((Task.new b e m).2).mem (((Task.new b e m).1).stack_pointer) = e ∧
    ¬ inStackBuffer (Task.new b e m).1 (((Task.new b e m).1).stack_pointer) ∧
    (execOps (switchOps (((Task.new b e m).1).stack_pointer))
      (Task.new b e m).2).rip = e := by
  refine ⟨rfl, by simp [Task.new], ?_, by simp [Task.new, execOps, execOp, switchOps]⟩
  simp only [Task.new, inStackBuffer]
  omega
